import Mathlib

/-
Verification of the Indego system explorer dashboard core.

This file is a shallow embedding of the feature-building, color/opacity
mapping, histogram binning, filter, and update-orchestration logic of
src/ui/main.js, together with the exact semantics of the third-party
library calls that logic makes (d3.scaleSequential / d3.interpolateMagma,
d3.scaleLinear, d3.bin / d3.ticks from d3-array v3, turf.convex /
turf.booleanIntersects, lodash-free parts of the orchestrator).

JavaScript numbers are modelled as exact rationals; the special values
NaN and the two infinities, which matter for division by zero and empty
Math.max spreads, are modelled explicitly by the JsNum type.  Geometry
values are opaque handles and the geometric predicates of turf.js are
oracle functions carried in a Turf structure; the null-propagation
behaviour of turf.convex (null hull for an empty collection) and of
turf.booleanIntersects (TypeError on a null argument, modelled as
Except.error) is embedded directly, since it is what the claims about
empty inputs turn on.
-/

namespace Indego

/-! ## JavaScript numeric semantics -/

/-- JavaScript number that may be NaN or an infinity (the cases produced
by division by zero and by Math.max of an empty spread). -/
inductive JsNum where
  | num (q : ℚ)
  | nan
  | posInf
  | negInf
deriving DecidableEq

/-- JavaScript division a / b: finite quotient when b is nonzero; for
b = 0 it yields NaN when a = 0 and a signed infinity otherwise. -/
def jsDiv (a b : ℚ) : JsNum :=
  if b = 0 then
    if a = 0 then JsNum.nan else if 0 < a then JsNum.posInf else JsNum.negInf
  else JsNum.num (a / b)

/-- JavaScript Math.round: round half toward positive infinity. -/
def jsRound (q : ℚ) : ℤ := ⌊q + 1/2⌋

/-- JavaScript Math.max(...xs) over a spread of list elements; the empty
spread gives -Infinity. -/
def jsMax : List ℚ → JsNum
  | [] => JsNum.negInf
  | x :: xs => JsNum.num (xs.foldl max x)

/-- Array.prototype.reduce with (sum, v) => sum + v and initial value 0. -/
def jsReduceSum (l : List ℚ) : ℚ := l.foldl (· + ·) 0

/-! ## Color mapping (main.js calculateColor, lines 220-223)

d3.scaleSequential(d3.interpolateMagma).domain([-1, 1]) maps an input x
to interpolateMagma((x + 1) / 2); the scale is unclamped, but it returns
its unknown value (undefined) when the input is NaN.  d3.interpolateMagma
(d3-scale-chromatic) looks the parameter t up in a 256-entry ramp at
index max(0, min(255, floor(t * 256))), so the index is clamped even
though the scale is not.  A color output is represented by that ramp
index; distinct indices are distinct ramp colors, and the undefined
output is distinct from every color. -/

/-- Output of the sequential magma color scale: a ramp index into the
256-entry magma table, or the scale's unknown value (undefined). -/
inductive ColorOut where
  | colorIdx (i : ℕ)
  | undef
deriving DecidableEq

/-- d3.scaleSequential(d3.interpolateMagma).domain([-1, 1]) applied to a
JavaScript number. -/
def magmaScale : JsNum → ColorOut
  | JsNum.nan => ColorOut.undef
  | JsNum.posInf => ColorOut.colorIdx 255
  | JsNum.negInf => ColorOut.colorIdx 0
  | JsNum.num q =>
    let t := (q + 1) / 2
    ColorOut.colorIdx (max 0 (min 255 ⌊t * 256⌋)).toNat

/-- main.js calculateColor: balance (destination - origin) / total pushed
through the magma scale on domain [-1, 1]. -/
def calculateColor (originPopularity destinationPopularity totalPopularity : ℚ) : ColorOut :=
  magmaScale (jsDiv (destinationPopularity - originPopularity) totalPopularity)

/-- Ramp index of the neutral color, i.e. of balance 0. -/
def neutralColor : ColorOut := calculateColor 0 0 1

/-! ## Data model -/

/-- Identifier of a dashboard feature: a station id in non-aggregated
mode, or a hex-grid cell index in aggregated mode. -/
inductive FeatId where
  | station (i : ℤ)
  | hex (i : ℕ)
deriving DecidableEq

/-- Opaque geometry handle; turf.js predicates on geometries are oracles. -/
abbrev Geom := ℕ

/-- Row of the popularity endpoint payload: {station_id, P_o, P_d,
geometry}.  The geometry field is the parsed GeoJSON value; none models
a JSON null. -/
structure StationRecord where
  station_id : ℤ
  P_o : ℚ
  P_d : ℚ
  geometry : Option Geom
deriving DecidableEq

/-- The properties object of a dashboard GeoJSON feature. -/
structure FeatureProps where
  originPopularity : ℚ
  destinationPopularity : ℚ
  totalPopularity : ℚ
deriving DecidableEq

/-- A dashboard GeoJSON feature. -/
structure Feature where
  id : FeatId
  properties : FeatureProps
  geometry : Option Geom
deriving DecidableEq

/-! ## Opacity mapping (main.js calculateOpacity, lines 226-231)

d3.scaleLinear().domain([0, m]).range([0.1, 1.0]) maps x to
0.1 + (x / m) * 0.9 when m is nonzero; when the domain is degenerate
(m = 0), d3's normalize helper returns the constant 1/2, so the scale
maps every input to 0.1 + (1/2) * 0.9 = 0.55.  When the feature list is
empty the domain upper bound Math.max(...) is -Infinity and the
normalized position of any finite input is -0, so the scale returns the
range minimum 0.1. -/

/-- main.js calculateOpacity. -/
def calculateOpacity (totalPopularity : ℚ) (features : List Feature) : ℚ :=
  let minOpacity : ℚ := 1/10
  let maxOpacity : ℚ := 1
  match jsMax (features.map (fun r => r.properties.totalPopularity)) with
  | JsNum.num m =>
    if m = 0 then minOpacity + (1/2) * (maxOpacity - minOpacity)
    else minOpacity + (totalPopularity / m) * (maxOpacity - minOpacity)
  | _ => minOpacity

/-! ## Feature builder (main.js getDashboardFeatures, lines 51-106) -/

/-- Oracle functions for the turf.js geometry operations used by the
feature builder.  hullExists g says whether turf.convex finds a hull
polygon (it returns null when the collection has no coordinates and when
the hull degenerates to fewer than four ring coordinates); hull g is the
hull polygon in the cases where one exists; intersects is
turf.booleanIntersects on two non-null geometries. -/
structure Turf where
  hull : List Geom → Geom
  hullExists : List Geom → Bool
  intersects : Geom → Geom → Bool

/-- turf.convex of the station feature collection, given the list of
geometries actually present (coordEach skips features with null
geometry).  An empty coordinate list yields null. -/
def convex (t : Turf) (gs : List Geom) : Option Geom :=
  if gs.isEmpty then none
  else if t.hullExists gs then some (t.hull gs) else none

/-- Error message standing for the TypeError thrown inside
turf.booleanIntersects when its second argument is null. -/
def nullGeoJSONMsg : String := "booleanIntersects: cannot read type of null"

/-- turf.booleanIntersects(hex, stationsHull): throws when the hull is
null (turf.convex returned null), modelled as Except.error. -/
def booleanIntersectsHull (t : Turf) (hex : Geom) : Option Geom → Except String Bool
  | none => Except.error nullGeoJSONMsg
  | some h => Except.ok (t.intersects hex h)

/-- The condition station.geometry && turf.booleanIntersects(hex,
station) from line 83: a station with null geometry is falsy and never
matches. -/
def stationMatches (t : Turf) (hex : Geom) (st : Feature) : Bool :=
  match st.geometry with
  | none => false
  | some g => t.intersects hex g

/-- Environment of the feature builder: the turf oracles and the hex
grid turf.hexGrid(turf.bbox(outlineData), 0.3, {units: 'kilometers'})
computed from the externally fetched city outline. -/
structure Env where
  turf : Turf
  hexGrid : List Geom

/-- The reserved aggregate-station sentinel filtered out on line 53. -/
def sentinelId : ℤ := 3000

/-- Lines 54-63: one GeoJSON feature per station record, with
totalPopularity = Math.max(P_o, P_d). -/
def stationFeature (row : StationRecord) : Feature :=
  { id := FeatId.station row.station_id
    properties :=
      { originPopularity := row.P_o
        destinationPopularity := row.P_d
        totalPopularity := max row.P_o row.P_d }
    geometry := row.geometry }

/-- Lines 52-63: drop the sentinel station, then map records to features. -/
def stationFeatures (stations : List StationRecord) : List Feature :=
  (stations.filter (fun row => row.station_id != sentinelId)).map stationFeature

/-- Lines 89-102: the aggregated cell feature for a retained hex, built
from the station features that intersect it. -/
def hexCellFeature (idx : ℕ) (hex : Geom) (matching : List Feature) : Feature :=
  { id := FeatId.hex idx
    properties :=
      { originPopularity := jsReduceSum (matching.map (fun st => st.properties.originPopularity))
        destinationPopularity :=
          jsReduceSum (matching.map (fun st => st.properties.destinationPopularity))
        totalPopularity := jsReduceSum (matching.map (fun st => st.properties.totalPopularity)) }
    geometry := some hex }

/-- Lines 77-104: the loop over the enumerated hex grid.  Each iteration
first tests the hex against the stations hull (throwing if the hull is
null), skips hexes that miss the hull or match no station, and otherwise
emits the aggregated cell. -/
def aggregateLoop (t : Turf) (hull : Option Geom) (sf : List Feature) :
    List (ℕ × Geom) → Except String (List Feature)
  | [] => Except.ok []
  | (idx, hex) :: rest =>
    match booleanIntersectsHull t hex hull with
    | Except.error e => Except.error e
    | Except.ok false => aggregateLoop t hull sf rest
    | Except.ok true =>
      let matching := sf.filter (stationMatches t hex)
      if matching.isEmpty then aggregateLoop t hull sf rest
      else
        match aggregateLoop t hull sf rest with
        | Except.error e => Except.error e
        | Except.ok tail => Except.ok (hexCellFeature idx hex matching :: tail)

/-- getDashboardFeatures given the already-built station feature list. -/
def getDashboardFeaturesFrom (env : Env) (sf : List Feature) (aggregate : Bool) :
    Except String (List Feature) :=
  if !aggregate then Except.ok sf
  else
    let stationsHull := convex env.turf (sf.filterMap (fun f => f.geometry))
    aggregateLoop env.turf stationsHull sf env.hexGrid.enum

/-- main.js getDashboardFeatures (lines 51-106). -/
def getDashboardFeatures (env : Env) (stations : List StationRecord) (aggregate : Bool) :
    Except String (List Feature) :=
  getDashboardFeaturesFrom env (stationFeatures stations) aggregate

/-! ## Filter state and map rendering (main.js lines 152-206) -/

/-- FilterRange: the four optional bounds stored in the filters object;
a missing JavaScript key is none. -/
structure Filters where
  originPopularityMin : Option ℚ := none
  originPopularityMax : Option ℚ := none
  destinationPopularityMin : Option ℚ := none
  destinationPopularityMax : Option ℚ := none
deriving DecidableEq

/-- The filters object with no keys set. -/
def emptyFilters : Filters := {}

/-- Lines 156-161: the predicate of updateMap's filteredFeatures. -/
def featurePasses (fl : Filters) (f : Feature) : Bool :=
  (match fl.originPopularityMin with
   | none => true
   | some v => decide (v ≤ f.properties.originPopularity)) &&
  (match fl.originPopularityMax with
   | none => true
   | some v => decide (f.properties.originPopularity ≤ v)) &&
  (match fl.destinationPopularityMin with
   | none => true
   | some v => decide (v ≤ f.properties.destinationPopularity)) &&
  (match fl.destinationPopularityMax with
   | none => true
   | some v => decide (f.properties.destinationPopularity ≤ v))

/-- The drawn feature subset of updateMap. -/
def filteredFeatures (fl : Filters) (features : List Feature) : List Feature :=
  features.filter (featurePasses fl)

/-- The specification reading of the filter contract: for every metric
with a defined min and/or max bound, the feature's value lies within
the inclusive range; absent bounds impose no constraint. -/
def FeaturePassesSpec (fl : Filters) (f : Feature) : Prop :=
  (∀ v, fl.originPopularityMin = some v → v ≤ f.properties.originPopularity) ∧
  (∀ v, fl.originPopularityMax = some v → f.properties.originPopularity ≤ v) ∧
  (∀ v, fl.destinationPopularityMin = some v → v ≤ f.properties.destinationPopularity) ∧
  (∀ v, fl.destinationPopularityMax = some v → f.properties.destinationPopularity ≤ v)

/-! ## Histogram binning (main.js renderChart, lines 277-364)

renderChart bins the feature metric with d3.bin().value(...).domain([0,
Math.max(...values)]).thresholds(20).  With a threshold count, d3.bin
(d3-array v3) converts the count into the nice tick values of
d3.ticks(x0, x1, 20); since the domain is explicit (not the data
extent), a final tick coinciding with the upper bound is popped, then
thresholds outside (x0, x1] are trimmed, and values are assigned to bins
by quantization on the tick step (with bisection as fallback when the
step is zero or not finite).  The tick computation itself (tickSpec in
d3-array) picks a step factor*10^power near (x1 - x0)/20 with factor in
{1, 2, 5, 10}; the comparisons of the normalized error against sqrt(50),
sqrt(10) and sqrt(2) are exact here (stated on squares), which agrees
with the floating-point code away from representation boundaries. -/

/-- Helper for the base-10 logarithm floor: digit count of a natural
number, structurally recursive on a fuel argument (fuel n suffices for
every n). -/
def log10fuel : ℕ → ℕ → ℕ
  | 0, _ => 0
  | fuel + 1, n => if n < 10 then 0 else log10fuel fuel (n / 10) + 1

/-- Floor of log10 on naturals (0 for 0). -/
def natLog10 (n : ℕ) : ℕ := log10fuel n n

/-- Helper for the base-10 logarithm floor of a rational in (0, 1):
least k at least 1 with q * 10^k at least 1, by fuel recursion (fuel
q.den suffices). -/
def negPow10 : ℕ → ℚ → ℕ
  | 0, _ => 1
  | fuel + 1, q => if 1 ≤ q * 10 then 1 else negPow10 fuel (q * 10) + 1

/-- Math.floor(Math.log10(q)) for a positive rational q. -/
def floorLog10 (q : ℚ) : ℤ :=
  if 1 ≤ q then (natLog10 (Int.toNat ⌊q⌋) : ℤ)
  else -(negPow10 q.den q : ℤ)

/-- The tick step factor of d3's tickSpec: error >= sqrt(50) gives 10,
error >= sqrt(10) gives 5, error >= sqrt(2) gives 2, else 1; the
irrational thresholds are compared via squares (error is nonnegative). -/
def tickFactor (error : ℚ) : ℚ :=
  if 50 ≤ error ^ 2 then 10
  else if 10 ≤ error ^ 2 then 5
  else if 2 ≤ error ^ 2 then 2
  else 1

/-- Result of d3-array's tickSpec: tick index range and the increment,
where a negative increment encodes the reciprocal of a fractional step
(exactly as in the JavaScript). -/
structure TickSpecOut where
  i1 : ℤ
  i2 : ℤ
  inc : ℚ
deriving DecidableEq

/-- d3-array tickSpec(start, stop, count) for start < stop and count >
0.  (The recursion d3 performs for counts below 2 is never taken at the
fixed count 20 used by renderChart.) -/
def tickSpec (start stop : ℚ) (count : ℕ) : TickSpecOut :=
  let step := (stop - start) / count
  let power := floorLog10 step
  let error := step / (10 : ℚ) ^ power
  let factor := tickFactor error
  if power < 0 then
    let inc := (10 : ℚ) ^ (-power) / factor
    let r1 := jsRound (start * inc)
    let i1 := if ((r1 : ℚ) / inc) < start then r1 + 1 else r1
    let r2 := jsRound (stop * inc)
    let i2 := if stop < ((r2 : ℚ) / inc) then r2 - 1 else r2
    ⟨i1, i2, -inc⟩
  else
    let inc := (10 : ℚ) ^ power * factor
    let r1 := jsRound (start / inc)
    let i1 := if ((r1 : ℚ) * inc) < start then r1 + 1 else r1
    let r2 := jsRound (stop / inc)
    let i2 := if stop < ((r2 : ℚ) * inc) then r2 - 1 else r2
    ⟨i1, i2, inc⟩

/-- The ascending tick list of a tickSpec result. -/
def tickRange (s : TickSpecOut) : List ℚ :=
  let n := (s.i2 - s.i1 + 1).toNat
  if s.inc < 0 then (List.range n).map (fun (i : ℕ) => ((s.i1 + (i : ℤ) : ℤ) : ℚ) / (-s.inc))
  else (List.range n).map (fun (i : ℕ) => ((s.i1 + (i : ℤ) : ℤ) : ℚ) * s.inc)

/-- d3.ticks(start, stop, count).  The descending (reversed) branch is
included for faithfulness but is never reached from the explicit
domains [0, M] with 0 < M that renderChart produces. -/
def ticksList (start stop : ℚ) (count : ℕ) : List ℚ :=
  if count = 0 then []
  else if start = stop then [start]
  else if stop < start then
    let s := tickSpec stop start count
    if s.i2 < s.i1 then [] else (tickRange s).reverse
  else
    let s := tickSpec start stop count
    if s.i2 < s.i1 then [] else tickRange s

/-- d3.tickIncrement(start, stop, count), as used by d3.bin: some inc
for the genuine positive-step cases, none standing for the zero or
non-finite values the JavaScript produces on degenerate inputs (which
d3.bin filters out with an isFinite check). -/
def tickIncrementOpt (start stop : ℚ) (count : ℕ) : Option ℚ :=
  if start < stop ∧ count ≠ 0 then some (tickSpec start stop count).inc else none

/-- The leading-threshold trim of d3.bin: while (tz[a] <= x0) ++a. -/
def trimLow (x0 : ℚ) (l : List ℚ) : List ℚ :=
  l.dropWhile (fun t => decide (t ≤ x0))

/-- The trailing-threshold trim of d3.bin: while (tz[b - 1] > x1) --b. -/
def trimHigh (x1 : ℚ) (l : List ℚ) : List ℚ :=
  (l.reverse.dropWhile (fun t => decide (x1 < t))).reverse

/-- d3.bisectRight(a, x, lo, hi) on a threshold array, by binary search
with fuel hi - lo (the interval shrinks every iteration). -/
def bisectRightAux (a : List ℚ) (x : ℚ) : ℕ → ℕ → ℕ → ℕ
  | 0, lo, _ => lo
  | fuel + 1, lo, hi =>
    if hi ≤ lo then lo
    else
      let mid := (lo + hi) / 2
      match a.get? mid with
      | some v =>
        if v ≤ x then bisectRightAux a x fuel (mid + 1) hi
        else bisectRightAux a x fuel lo mid
      | none => lo

/-- d3.bisectRight entry point. -/
def bisectRight (a : List ℚ) (x : ℚ) (lo hi : ℕ) : ℕ := bisectRightAux a x (hi - lo) lo hi

/-- The trimmed threshold list d3.bin derives from an explicit domain
[x0, x1] and a threshold count. -/
def binThresholds (x0 x1 : ℚ) (tn : ℕ) : List ℚ :=
  let tz0 := ticksList x0 x1 tn
  let tz1 :=
    match tz0.getLast? with
    | some t => if x1 ≤ t then tz0.dropLast else tz0
    | none => tz0
  trimHigh x1 (trimLow x0 tz1)

/-- The quantization step d3.bin stores when the first tick does not
exceed the domain minimum (it always does so for the domains [0, M]
used here). -/
def binStep (x0 x1 : ℚ) (tn : ℕ) : Option ℚ :=
  match (ticksList x0 x1 tn).head? with
  | some t => if t ≤ x0 then tickIncrementOpt x0 x1 tn else none
  | none => none

/-- Bin index assignment of d3.bin for a value already known to lie in
[x0, x1]: quantization when a finite step was stored (the negative-step
branch carries the off-by-one correction of the JavaScript), bisection
otherwise. -/
def binIndex (tz : List ℚ) (m : ℕ) (stepOpt : Option ℚ) (x0 x : ℚ) : ℕ :=
  match stepOpt with
  | some step =>
    if 0 < step then min m (Int.toNat ⌊(x - x0) / step⌋)
    else
      let s := -step
      let j := Int.toNat ⌊(x - x0) * s⌋
      let corr : ℕ :=
        match tz.get? j with
        | some t => if t ≤ x then 1 else 0
        | none => 0
      min m (j + corr)
  | none => bisectRight tz x 0 m

/-- One output bin of d3.bin: the bin extent [x0, x1] and the data items
assigned to it. -/
structure D3Bin (α : Type) where
  x0 : ℚ
  x1 : ℚ
  items : List α
deriving DecidableEq

/-- The i-th output bin of d3.bin: its extent (the domain edge at the
ends, the neighbouring thresholds inside) and, rendering the imperative
push loop of the source as a per-bin filter, the data items whose value
lies in the domain and whose assigned index is i (this preserves both
the assignment and the data order within each bin). -/
def d3binAt {α : Type} [DecidableEq α] (value : α → ℚ) (x0 x1 : ℚ) (tz : List ℚ)
    (stepOpt : Option ℚ) (m : ℕ) (data : List α) (i : ℕ) : D3Bin α :=
  { x0 := if i = 0 then x0 else tz.getD (i - 1) 0
    x1 := if i < m then tz.getD i 0 else x1
    items := data.filter (fun d =>
      decide (x0 ≤ value d) && decide (value d ≤ x1) &&
      (binIndex tz m stepOpt x0 (value d) == i)) }

/-- d3.bin().value(value).domain([x0, x1]).thresholds(tn)(data). -/
def d3bin {α : Type} [DecidableEq α] (value : α → ℚ) (x0 x1 : ℚ) (tn : ℕ)
    (data : List α) : List (D3Bin α) :=
  let tz := binThresholds x0 x1 tn
  let stepOpt := binStep x0 x1 tn
  let m := tz.length
  (List.range (m + 1)).map (d3binAt value x0 x1 tz stepOpt m data)

/-- The two histogram metrics. -/
inductive Metric where
  | origin
  | destination
deriving DecidableEq

/-- Property accessor d.properties[property] of renderChart. -/
def Metric.value : Metric → Feature → ℚ
  | Metric.origin, f => f.properties.originPopularity
  | Metric.destination, f => f.properties.destinationPopularity

/-- Math.max(...features.map(r => r.properties[property])): the domain
upper bound of the histogram. -/
def metricMax (features : List Feature) (p : Metric) : Option ℚ :=
  match jsMax (features.map p.value) with
  | JsNum.num m => some m
  | _ => none

/-- The histogramData of renderChart (lines 283-286).  For an empty
feature list the JavaScript domain upper bound is -Infinity and the
histogram degenerates; that case is outside the claims and modelled as
none. -/
def renderChartBins (features : List Feature) (p : Metric) : Option (List (D3Bin Feature)) :=
  match metricMax features p with
  | some m => some (d3bin p.value 0 m 20 features)
  | none => none

/-- Write the min/max pair of one metric in the filters object (setting
none deletes the key). -/
def setMetricBounds (p : Metric) (lo hi : Option ℚ) (fl : Filters) : Filters :=
  match p with
  | Metric.origin => { fl with originPopularityMin := lo, originPopularityMax := hi }
  | Metric.destination => { fl with destinationPopularityMin := lo, destinationPopularityMax := hi }

/-- The dataPointSelection handler of renderChart (lines 294-308): an
empty selection deletes the metric's min and max keys; a selected bin
index stores that bin's lower and upper edges.  (An out-of-range index,
which ApexCharts never delivers, would store undefined twice, which the
filter predicate treats the same as deleted keys.) -/
def applyBucketSelection (hist : List (D3Bin Feature)) (p : Metric) (sel : Option ℕ)
    (fl : Filters) : Filters :=
  match sel with
  | none => setMetricBounds p none none fl
  | some i =>
    match hist.get? i with
    | some b => setMetricBounds p (some b.x0) (some b.x1) fl
    | none => setMetricBounds p none none fl

/-! ## Time window controls (main.js lines 401-421) -/

/-- The startHour/endHour pair. -/
structure TimeWindow where
  startHour : ℤ
  endHour : ℤ
deriving DecidableEq

/-- Well-formedness the specification asserts for the time window. -/
def TimeWindow.wf (w : TimeWindow) : Prop :=
  0 ≤ w.startHour ∧ w.startHour < w.endHour ∧ w.endHour ≤ 23

/-- The start-hour input handler (lines 401-410): set startHour from
the control, and if startHour >= endHour push endHour to startHour + 1. -/
def startHourInput (v : ℤ) (w : TimeWindow) : TimeWindow :=
  let w2 : TimeWindow := { w with startHour := v }
  if w2.endHour ≤ w2.startHour then { w2 with endHour := w2.startHour + 1 } else w2

/-- The end-hour input handler (lines 412-421): set endHour from the
control, and if endHour <= startHour pull startHour to endHour - 1. -/
def endHourInput (v : ℤ) (w : TimeWindow) : TimeWindow :=
  let w2 : TimeWindow := { w with endHour := v }
  if w2.endHour ≤ w2.startHour then { w2 with startHour := w2.endHour - 1 } else w2

/-! ## Update orchestration (main.js lines 266-274 and 366-392)

runUpdateCycle is the body of updateAll from line 378 on, tracking the
FilterRange-relevant effects in order: fetchStationData only overwrites
the stations (it never touches filters); getDashboardFeatures builds the
features; updateMap draws filteredFeatures using the filters in effect
at that moment; updateLegend does not touch filters; updateCharts then
deletes all four filter bounds and re-renders the histograms. -/

/-- Observable outcome of one update cycle: the FilterRange in effect
when updateMap ran, the feature subset it drew, and the FilterRange
left when the cycle finished. -/
structure CycleResult where
  renderedFilters : Filters
  renderedFeatures : List Feature
  finalFilters : Filters
deriving DecidableEq

/-- One fetch-and-render cycle (updateAll body, lines 378-391). -/
def runUpdateCycle (env : Env) (filters0 : Filters) (fetched : List StationRecord)
    (aggregate : Bool) : Except String CycleResult :=
  match getDashboardFeatures env fetched aggregate with
  | Except.error e => Except.error e
  | Except.ok features =>
    Except.ok
      { renderedFilters := filters0
        renderedFeatures := filteredFeatures filters0 features
        finalFilters := emptyFilters }

/-- State of the updateAll re-entrancy guard: the isUpdating flag, the
stored timer handle updateTimeout, the set of pending timers the
environment actually holds (setTimeout adds one, clearTimeout removes
the named one), and a fresh-handle counter. -/
structure OrchState where
  isUpdating : Bool
  updateTimeout : Option ℕ
  scheduled : List ℕ
  nextId : ℕ
deriving DecidableEq

/-- One trigger hitting updateAll (lines 368-376): clear any stored
timeout, then, if an update is in flight, schedule a single deferred
re-run and return.  The not-in-flight branch falls through into the
update body and is not part of this guard model, so it yields none. -/
def triggerStep (s : OrchState) : Option OrchState :=
  let s1 :=
    match s.updateTimeout with
    | some t => { s with scheduled := s.scheduled.erase t }
    | none => s
  if s1.isUpdating then
    some { s1 with
            updateTimeout := some s1.nextId
            scheduled := s1.scheduled ++ [s1.nextId]
            nextId := s1.nextId + 1 }
  else none

/-- n successive triggers, all arriving while the update stays in
flight. -/
def triggerN : ℕ → OrchState → Option OrchState
  | 0, s => some s
  | n + 1, s => (triggerStep s).bind (triggerN n)

/-- Invariant of the guard state: at most one pending timer, the stored
handle names every pending timer, and handles are below the freshness
counter. -/
def OrchInv (s : OrchState) : Prop :=
  s.scheduled.length ≤ 1 ∧
  (∀ t ∈ s.scheduled, s.updateTimeout = some t) ∧
  (∀ t, s.updateTimeout = some t → t < s.nextId)

/-! ## Derived notions and concrete inputs used by the theorems below -/

/-- Bounds every feature emitted by the builder satisfies when the
fetched records have nonnegative popularities: nonnegative metrics, each
dominated by totalPopularity. -/
def PropsBounded (f : Feature) : Prop :=
  0 ≤ f.properties.originPopularity ∧ 0 ≤ f.properties.destinationPopularity ∧
  f.properties.originPopularity ≤ f.properties.totalPopularity ∧
  f.properties.destinationPopularity ≤ f.properties.totalPopularity

/-- Decoded tick step of a tickSpec result (a negative increment encodes
the reciprocal of the true fractional step). -/
def TickSpecOut.step (s : TickSpecOut) : ℚ := if s.inc < 0 then 1 / (-s.inc) else s.inc

/-- Concrete turf oracle: every pair of geometries intersects and every
nonempty collection has a hull. -/
def exTurf : Turf := ⟨fun _ => 0, fun _ => true, fun _ _ => true⟩

/-- Concrete environment with a one-cell hex grid. -/
def exEnv : Env := ⟨exTurf, [0]⟩

/-- Concrete station record with equal origin and destination popularity. -/
def exStation : StationRecord := ⟨1, 5, 5, some 0⟩

/-- Concrete feature with originPopularity 5 (the filter-composition
example of the specification). -/
def exFeature5 : Feature := ⟨FeatId.station 1, ⟨5, 0, 5⟩, none⟩

/-- Concrete feature whose popularities are all zero. -/
def zeroFeature : Feature := ⟨FeatId.station 1, ⟨0, 0, 0⟩, none⟩

/-- Concrete feature with totalPopularity 2. -/
def opFeature : Feature := ⟨FeatId.station 2, ⟨1, 2, 2⟩, none⟩

/-- Concrete nonempty filter state (an origin lower bound of 100). -/
def exC9Filters : Filters := { originPopularityMin := some 100 }

/-- Concrete feature with originPopularity 70, giving histogram domain
[0, 70]. -/
def f70 : Feature := ⟨FeatId.station 3, ⟨70, 0, 70⟩, none⟩

/-- The bins d3.bin actually produces for one value 70 on domain
[0, 70] with threshold count 20: fourteen buckets of nice width 5, the
value landing in the last one. -/
def exC4bins : List (D3Bin Feature) :=
  [⟨0, 5, []⟩, ⟨5, 10, []⟩, ⟨10, 15, []⟩, ⟨15, 20, []⟩, ⟨20, 25, []⟩, ⟨25, 30, []⟩,
   ⟨30, 35, []⟩, ⟨35, 40, []⟩, ⟨40, 45, []⟩, ⟨45, 50, []⟩, ⟨50, 55, []⟩, ⟨55, 60, []⟩,
   ⟨60, 65, []⟩, ⟨65, 70, [f70]⟩]

/-- Guard state at the moment an update cycle starts running: in flight,
no timer stored, none pending. -/
def orch0 : OrchState := ⟨true, none, [], 0⟩

/-! ## Theorems -/

/-- C3 counterexample: from the program's initial, well-formed time
window {startHour 0, endHour 23}, the in-range input 23 on the start
slider drives endHour to 24, so the claimed 0..23 containment fails
after a single input event. -/
theorem C3_counterexample :
    (0 : ℤ) ≤ 23 ∧ (23 : ℤ) ≤ 23 ∧ TimeWindow.wf ⟨0, 23⟩ ∧
    (startHourInput 23 ⟨0, 23⟩).endHour = 24 ∧
    ¬ TimeWindow.wf (startHourInput 23 ⟨0, 23⟩) := by
  unfold TimeWindow.wf startHourInput
  refine ⟨by decide, by decide, by decide, by decide, by decide⟩

/-- C3 (amended): a single start-hour or end-hour input event always
re-establishes startHour < endHour, and the changed bound stays in
0..23; but the auto-adjusted other bound is only guaranteed to stay in
the widened ranges endHour ≤ 24 and startHour ≥ -1, and the claimed
0..23 containment fails at the boundary (see the counterexample). -/
theorem C3_hour_adjust (v : ℤ) (w : TimeWindow) (h0 : 0 ≤ v) (h23 : v ≤ 23) :
    (startHourInput v w).startHour < (startHourInput v w).endHour ∧
    (endHourInput v w).startHour < (endHourInput v w).endHour ∧
    (0 ≤ (startHourInput v w).startHour ∧ (startHourInput v w).startHour ≤ 23) ∧
    (0 ≤ (endHourInput v w).endHour ∧ (endHourInput v w).endHour ≤ 23) ∧
    (w.endHour ≤ 23 → (startHourInput v w).endHour ≤ 24) ∧
    (0 ≤ w.startHour → -1 ≤ (endHourInput v w).startHour) := by
  unfold startHourInput endHourInput
  dsimp only
  split <;> split <;> dsimp only <;>
    refine ⟨by omega, by omega, ⟨by omega, by omega⟩, ⟨by omega, by omega⟩,
      by intro h; omega, by intro h; omega⟩

/-- C3 witness: the amended theorem evaluated at input 10 on the window
{8, 9}. -/
theorem C3_hour_adjust_witness :
    (startHourInput 10 ⟨8, 9⟩).startHour < (startHourInput 10 ⟨8, 9⟩).endHour ∧
    (endHourInput 10 ⟨8, 9⟩).startHour < (endHourInput 10 ⟨8, 9⟩).endHour ∧
    (0 ≤ (startHourInput 10 ⟨8, 9⟩).startHour ∧ (startHourInput 10 ⟨8, 9⟩).startHour ≤ 23) ∧
    (0 ≤ (endHourInput 10 ⟨8, 9⟩).endHour ∧ (endHourInput 10 ⟨8, 9⟩).endHour ≤ 23) ∧
    ((⟨8, 9⟩ : TimeWindow).endHour ≤ 23 → (startHourInput 10 ⟨8, 9⟩).endHour ≤ 24) ∧
    (0 ≤ (⟨8, 9⟩ : TimeWindow).startHour → -1 ≤ (endHourInput 10 ⟨8, 9⟩).startHour) :=
  C3_hour_adjust 10 ⟨8, 9⟩ (by decide) (by decide)

/-- Helper for C10: one trigger arriving while an update is in flight
leaves exactly one pending deferred re-run and preserves the guard
invariant and the in-flight flag. -/
theorem triggerStep_single (s s2 : OrchState) (hinv : OrchInv s)
    (hupd : s.isUpdating = true) (h : triggerStep s = some s2) :
    s2.scheduled.length = 1 ∧ OrchInv s2 ∧ s2.isUpdating = true := by
  obtain ⟨hlen, hall, hfresh⟩ := hinv
  have key : ∀ (sc2 : List ℕ) (b : Bool), b = true → sc2 = [] →
      s2 = OrchState.mk b (some s.nextId) (sc2 ++ [s.nextId]) (s.nextId + 1) →
      s2.scheduled.length = 1 ∧ OrchInv s2 ∧ s2.isUpdating = true := by
    intro sc2 b hb hsc2 heq
    subst heq
    subst hsc2
    refine ⟨by simp, ⟨by simp, ?_, ?_⟩, by simpa using hb⟩
    · intro t ht
      simp only [List.nil_append, List.mem_singleton] at ht
      simp [ht]
    · intro t ht
      simp only [Option.some.injEq] at ht
      show t < s.nextId + 1
      omega
  cases hto : s.updateTimeout with
  | none =>
    have hsch : s.scheduled = [] := by
      cases hs : s.scheduled with
      | nil => rfl
      | cons a l =>
        have := hall a (by rw [hs]; exact List.mem_cons_self a l)
        rw [hto] at this
        cases this
    unfold triggerStep at h
    rw [hto] at h
    dsimp only at h
    rw [if_pos hupd] at h
    injection h with h2
    exact key s.scheduled s.isUpdating hupd hsch h2.symm
  | some t0 =>
    have hsch : s.scheduled.erase t0 = [] := by
      cases hs : s.scheduled with
      | nil => rfl
      | cons a l =>
        have ha := hall a (by rw [hs]; exact List.mem_cons_self a l)
        rw [hto] at ha
        injection ha with ha2
        subst ha2
        have hl : l = [] := by
          cases hl2 : l with
          | nil => rfl
          | cons b l2 =>
            rw [hs, hl2] at hlen
            simp at hlen
        rw [hl]
        simp
    unfold triggerStep at h
    rw [hto] at h
    dsimp only at h
    rw [if_pos hupd] at h
    injection h with h2
    exact key (s.scheduled.erase t0) s.isUpdating hupd hsch h2.symm

/-- C10: any number n + 1 of triggers arriving while an update cycle is
in flight leaves exactly one pending deferred re-run: overlapping
triggers are coalesced into a single queued follow-up, never more. -/
theorem C10_coalesce (s : OrchState) (n : ℕ) (s2 : OrchState) (hinv : OrchInv s)
    (hupd : s.isUpdating = true) (hrun : triggerN (n + 1) s = some s2) :
    s2.scheduled.length = 1 ∧ OrchInv s2 ∧ s2.isUpdating = true := by
  induction n generalizing s with
  | zero =>
    unfold triggerN at hrun
    cases hts : triggerStep s with
    | none => rw [hts] at hrun; cases hrun
    | some s1 =>
      rw [hts] at hrun
      have hrun2 : triggerN 0 s1 = some s2 := hrun
      unfold triggerN at hrun2
      injection hrun2 with h2
      exact h2 ▸ triggerStep_single s s1 hinv hupd hts
  | succ n ih =>
    unfold triggerN at hrun
    cases hts : triggerStep s with
    | none => rw [hts] at hrun; cases hrun
    | some s1 =>
      rw [hts] at hrun
      have hrun2 : triggerN (n + 1) s1 = some s2 := hrun
      obtain ⟨-, hinv1, hupd1⟩ := triggerStep_single s s1 hinv hupd hts
      exact ih s1 hinv1 hupd1 hrun2

/-- C10 witness: three triggers from a clean in-flight state leave
exactly one pending re-run. -/
theorem C10_coalesce_witness :
    (⟨true, some 2, [2], 3⟩ : OrchState).scheduled.length = 1 ∧
    OrchInv ⟨true, some 2, [2], 3⟩ ∧
    (⟨true, some 2, [2], 3⟩ : OrchState).isUpdating = true :=
  C10_coalesce orch0 2 ⟨true, some 2, [2], 3⟩
    ⟨by simp [orch0], by simp [orch0], by simp [orch0]⟩ rfl rfl

/-- Helper: the boolean filter predicate of updateMap (lines 156-161)
agrees with the specification reading of the FilterRange contract. -/
theorem featurePasses_iff (fl : Filters) (f : Feature) :
    featurePasses fl f = true ↔ FeaturePassesSpec fl f := by
  obtain ⟨omin, omax, dmin, dmax⟩ := fl
  cases omin <;> cases omax <;> cases dmin <;> cases dmax <;>
    simp [featurePasses, FeaturePassesSpec, and_assoc]

/-- C8: the rendered subset contains exactly the features that satisfy
every defined bound inclusively, the two metrics being constrained
jointly; in particular originPopularity 5 passes the filter with origin
bounds [3, 10] and fails the filter with origin lower bound 6. -/
theorem C8_filter :
    (∀ (fl : Filters) (features : List Feature) (f : Feature),
        f ∈ filteredFeatures fl features ↔ f ∈ features ∧ FeaturePassesSpec fl f) ∧
    featurePasses ⟨some 3, some 10, none, none⟩ exFeature5 = true ∧
    featurePasses ⟨some 6, none, none, none⟩ exFeature5 = false := by
  refine ⟨?_, ?_, ?_⟩
  · intro fl features f
    rw [filteredFeatures, List.mem_filter, featurePasses_iff]
  · norm_num [featurePasses, exFeature5]
  · norm_num [featurePasses, exFeature5]

/-- C8 witness: the membership characterization evaluated on the
concrete feature and filter of the specification's example. -/
theorem C8_filter_witness :
    exFeature5 ∈ filteredFeatures ⟨some 3, some 10, none, none⟩ [exFeature5] ↔
      exFeature5 ∈ [exFeature5] ∧ FeaturePassesSpec ⟨some 3, some 10, none, none⟩ exFeature5 :=
  C8_filter.1 ⟨some 3, some 10, none, none⟩ [exFeature5] exFeature5

/-- C5 counterexample: when every feature has totalPopularity 0 the
linear scale's domain degenerates to [0, 0] and d3 returns the constant
midpoint of the range, 0.55, not the claimed range minimum 0.1. -/
theorem C5_counterexample :
    calculateOpacity 0 [zeroFeature] = 11/20 ∧ ((11 : ℚ)/20) ≠ 1/10 := by
  constructor
  · norm_num [calculateOpacity, zeroFeature, jsMax]
  · norm_num

/-- C5 (amended): for a feature set whose totalPopularity maximum m is
positive, opacity is the linear map of totalPopularity from [0, m] onto
[0.1, 1.0]; but when m = 0 (every feature's totalPopularity is 0) the
computed opacity is the range midpoint 0.55, not the claimed 0.1. -/
theorem C5_opacity (t : ℚ) (features : List Feature) (m : ℚ)
    (hm : jsMax (features.map (fun r => r.properties.totalPopularity)) = JsNum.num m) :
    (0 < m → calculateOpacity t features = 1/10 + (t / m) * (9/10)) ∧
    (m = 0 → calculateOpacity t features = 11/20) := by
  constructor
  · intro hpos
    unfold calculateOpacity
    rw [hm]
    dsimp only
    rw [if_neg (ne_of_gt hpos)]
    norm_num
  · intro h0
    unfold calculateOpacity
    rw [hm]
    dsimp only
    rw [if_pos h0]
    norm_num

/-- C5 witness: the amended theorem evaluated on a singleton feature set
with totalPopularity maximum 2, at input 3. -/
theorem C5_opacity_witness :
    (0 < (2 : ℚ) → calculateOpacity 3 [opFeature] = 1/10 + ((3 : ℚ) / 2) * (9/10)) ∧
    ((2 : ℚ) = 0 → calculateOpacity 3 [opFeature] = 11/20) :=
  C5_opacity 3 [opFeature] 2 (by norm_num [jsMax, opFeature])

/-- C1 counterexample: a feature with totalPopularity 0 (and equal
origin and destination popularity) makes the balance 0/0 = NaN, and the
sequential scale returns its undefined unknown value, not the neutral
balance-0 color. -/
theorem C1_counterexample :
    calculateColor 0 0 0 = ColorOut.undef ∧ neutralColor = ColorOut.colorIdx 128 ∧
    calculateColor 0 0 0 ≠ neutralColor := by
  have h1 : calculateColor 0 0 0 = ColorOut.undef := by
    norm_num [calculateColor, jsDiv, magmaScale]
  have h2 : neutralColor = ColorOut.colorIdx 128 := by
    norm_num [neutralColor, calculateColor, jsDiv, magmaScale, Int.floor_eq_iff,
      min_def, max_def]
    rfl
  refine ⟨h1, h2, ?_⟩
  rw [h1, h2]
  simp

/-- Helper: the JavaScript reduce-with-plus equals the list sum. -/
theorem jsReduceSum_eq_sum (l : List ℚ) : jsReduceSum l = l.sum := by
  unfold jsReduceSum
  have aux : ∀ (l2 : List ℚ) (a : ℚ), l2.foldl (· + ·) a = a + l2.sum := by
    intro l2
    induction l2 with
    | nil => intro a; simp
    | cons x xs ih =>
      intro a
      rw [List.foldl_cons, ih, List.sum_cons]
      ring
  rw [aux]
  simp

/-- Helper: membership in the station feature list. -/
theorem mem_stationFeatures (stations : List StationRecord) (f : Feature) :
    f ∈ stationFeatures stations ↔
      ∃ r ∈ stations, r.station_id ≠ sentinelId ∧ f = stationFeature r := by
  unfold stationFeatures
  simp only [List.mem_map, List.mem_filter, bne_iff_ne, ne_eq]
  constructor
  · rintro ⟨r, ⟨hr, hne⟩, rfl⟩
    exact ⟨r, hr, hne, rfl⟩
  · rintro ⟨r, hr, hne, rfl⟩
    exact ⟨r, ⟨hr, hne⟩, rfl⟩

/-- Helper: the non-aggregated branch of the builder. -/
theorem getDashboardFeatures_false (env : Env) (stations : List StationRecord) :
    getDashboardFeatures env stations false = Except.ok (stationFeatures stations) := rfl

/-- Helper: the aggregated branch of the builder. -/
theorem getDashboardFeatures_true (env : Env) (stations : List StationRecord) :
    getDashboardFeatures env stations true =
      aggregateLoop env.turf
        (convex env.turf ((stationFeatures stations).filterMap (fun f => f.geometry)))
        (stationFeatures stations) env.hexGrid.enum := rfl

/-- Helper: every feature an aggregated run emits is the cell feature of
some enumerated hex, built from exactly the station features matching
that hex. -/
theorem aggregateLoop_mem (t : Turf) (hull : Option Geom) (sf : List Feature)
    (l : List (ℕ × Geom)) (out : List Feature)
    (h : aggregateLoop t hull sf l = Except.ok out) :
    ∀ f ∈ out, ∃ p ∈ l, f = hexCellFeature p.1 p.2 (sf.filter (stationMatches t p.2)) := by
  induction l generalizing out with
  | nil =>
    unfold aggregateLoop at h
    injection h with h2
    subst h2
    intro f hf
    cases hf
  | cons hd tl ih =>
    obtain ⟨idx, hex⟩ := hd
    unfold aggregateLoop at h
    cases hbi : booleanIntersectsHull t hex hull with
    | error e =>
      rw [hbi] at h
      cases h
    | ok b =>
      rw [hbi] at h
      cases b with
      | false =>
        intro f hf
        obtain ⟨p, hp, hfp⟩ := ih out h f hf
        exact ⟨p, List.mem_cons_of_mem _ hp, hfp⟩
      | true =>
        dsimp only at h
        split at h
        · intro f hf
          obtain ⟨p, hp, hfp⟩ := ih out h f hf
          exact ⟨p, List.mem_cons_of_mem _ hp, hfp⟩
        · cases hrest : aggregateLoop t hull sf tl with
          | error e =>
            rw [hrest] at h
            cases h
          | ok tail =>
            rw [hrest] at h
            injection h with h2
            subst h2
            intro f hf
            rcases List.mem_cons.mp hf with hf1 | hf2
            · exact ⟨(idx, hex), List.mem_cons_self _ _, hf1⟩
            · obtain ⟨p, hp, hfp⟩ := ih tail hrest f hf2
              exact ⟨p, List.mem_cons_of_mem _ hp, hfp⟩

/-- Helper: when the fetched records carry nonnegative popularities,
every feature the builder emits has nonnegative metrics, each dominated
by its totalPopularity. -/
theorem builder_props_bounded (env : Env) (stations : List StationRecord) (aggregate : Bool)
    (fs : List Feature) (hnn : ∀ r ∈ stations, 0 ≤ r.P_o ∧ 0 ≤ r.P_d)
    (hrun : getDashboardFeatures env stations aggregate = Except.ok fs) :
    ∀ f ∈ fs, PropsBounded f := by
  have hstation : ∀ g ∈ stationFeatures stations, PropsBounded g := by
    intro g hg
    rw [mem_stationFeatures] at hg
    obtain ⟨r, hr, -, rfl⟩ := hg
    obtain ⟨h1, h2⟩ := hnn r hr
    exact ⟨h1, h2, le_max_left _ _, le_max_right _ _⟩
  cases aggregate with
  | false =>
    rw [getDashboardFeatures_false] at hrun
    injection hrun with h2
    subst h2
    exact hstation
  | true =>
    rw [getDashboardFeatures_true] at hrun
    intro f hf
    obtain ⟨p, hp, rfl⟩ := aggregateLoop_mem _ _ _ _ _ hrun f hf
    have hsub : ∀ g ∈ (stationFeatures stations).filter (stationMatches env.turf p.2),
        PropsBounded g := fun g hg => hstation g (List.mem_of_mem_filter hg)
    unfold hexCellFeature PropsBounded
    dsimp only
    rw [jsReduceSum_eq_sum, jsReduceSum_eq_sum, jsReduceSum_eq_sum]
    refine ⟨?_, ?_, ?_, ?_⟩
    · refine List.sum_nonneg ?_
      intro x hx
      obtain ⟨g, hg, rfl⟩ := List.mem_map.mp hx
      exact (hsub g hg).1
    · refine List.sum_nonneg ?_
      intro x hx
      obtain ⟨g, hg, rfl⟩ := List.mem_map.mp hx
      exact (hsub g hg).2.1
    · exact List.sum_le_sum (fun g hg => (hsub g hg).2.2.1)
    · exact List.sum_le_sum (fun g hg => (hsub g hg).2.2.2)

/-- C1 (amended): for every feature the builder emits from records with
nonnegative popularities, the color balance is a finite rational in
[-1, 1] whenever totalPopularity is positive; when totalPopularity is 0
both metrics are 0, the balance is 0/0 = NaN, and the color mapping
returns the scale's undefined unknown value rather than the neutral
color. -/
theorem C1_balance (env : Env) (stations : List StationRecord) (aggregate : Bool)
    (fs : List Feature) (hnn : ∀ r ∈ stations, 0 ≤ r.P_o ∧ 0 ≤ r.P_d)
    (hrun : getDashboardFeatures env stations aggregate = Except.ok fs) :
    ∀ f ∈ fs,
      (0 < f.properties.totalPopularity →
        ∃ q, jsDiv (f.properties.destinationPopularity - f.properties.originPopularity)
            f.properties.totalPopularity = JsNum.num q ∧ -1 ≤ q ∧ q ≤ 1) ∧
      (f.properties.totalPopularity = 0 →
        calculateColor f.properties.originPopularity f.properties.destinationPopularity
          f.properties.totalPopularity = ColorOut.undef) := by
  intro f hf
  obtain ⟨ho, hd, hot, hdt⟩ := builder_props_bounded env stations aggregate fs hnn hrun f hf
  constructor
  · intro hpos
    refine ⟨(f.properties.destinationPopularity - f.properties.originPopularity) /
        f.properties.totalPopularity, ?_, ?_, ?_⟩
    · unfold jsDiv
      rw [if_neg (ne_of_gt hpos)]
    · rw [le_div_iff₀ hpos]
      linarith
    · rw [div_le_one hpos]
      linarith
  · intro h0
    have ho0 : f.properties.originPopularity = 0 := le_antisymm (h0 ▸ hot) ho
    have hd0 : f.properties.destinationPopularity = 0 := le_antisymm (h0 ▸ hdt) hd
    rw [ho0, hd0, h0]
    norm_num [calculateColor, jsDiv, magmaScale]

/-- C1 witness: the amended theorem evaluated on a single station with
popularities 5 and 5 in non-aggregated mode. -/
theorem C1_balance_witness :
    (0 < (stationFeature exStation).properties.totalPopularity →
      ∃ q, jsDiv ((stationFeature exStation).properties.destinationPopularity -
          (stationFeature exStation).properties.originPopularity)
          (stationFeature exStation).properties.totalPopularity = JsNum.num q ∧
        -1 ≤ q ∧ q ≤ 1) ∧
    ((stationFeature exStation).properties.totalPopularity = 0 →
      calculateColor (stationFeature exStation).properties.originPopularity
        (stationFeature exStation).properties.destinationPopularity
        (stationFeature exStation).properties.totalPopularity = ColorOut.undef) :=
  C1_balance exEnv [exStation] false [stationFeature exStation]
    (by
      intro r hr
      rw [List.mem_singleton] at hr
      subst hr
      constructor <;> norm_num [exStation])
    rfl (stationFeature exStation) (List.mem_singleton.mpr rfl)

/-- C2 counterexample: with zero stations and a nonempty hex grid, the
aggregated path does not terminate normally with an empty output: the
convex hull is null and the first hull-intersection test throws. -/
theorem C2_counterexample :
    getDashboardFeatures exEnv [] true = Except.error nullGeoJSONMsg ∧
    (Except.error nullGeoJSONMsg : Except String (List Feature)) ≠ Except.ok [] := by
  exact ⟨rfl, by simp⟩

/-- C2 (amended): zero stations give the empty feature list in
non-aggregated mode; in aggregated mode turf.convex returns null for
the empty collection and, as soon as the hex grid is nonempty (it
always is for the city bounding box), turf.booleanIntersects throws on
the null hull, so the aggregated path fails instead of emitting no
cells. -/
theorem C2_empty_input (env : Env) :
    getDashboardFeatures env [] false = Except.ok [] ∧
    (env.hexGrid ≠ [] → getDashboardFeatures env [] true = Except.error nullGeoJSONMsg) := by
  constructor
  · rfl
  · intro hne
    obtain ⟨g, rest, hg⟩ := List.exists_cons_of_ne_nil hne
    rw [getDashboardFeatures_true, hg]
    rfl

/-- C2 witness: the amended theorem evaluated at the concrete
environment with a one-cell hex grid. -/
theorem C2_empty_input_witness :
    getDashboardFeatures exEnv [] false = Except.ok [] ∧
    getDashboardFeatures exEnv [] true = Except.error nullGeoJSONMsg :=
  ⟨(C2_empty_input exEnv).1, (C2_empty_input exEnv).2 (by simp [exEnv])⟩

/-- C7: the builder output is unchanged when records with the sentinel
station_id 3000 are removed beforehand (they contribute to no feature
and to no aggregated sum), and in non-aggregated mode no emitted
feature carries the sentinel id. -/
theorem C7_sentinel :
    (∀ (env : Env) (stations : List StationRecord) (aggregate : Bool),
        getDashboardFeatures env stations aggregate =
          getDashboardFeatures env
            (stations.filter (fun r => r.station_id != sentinelId)) aggregate) ∧
    (∀ (env : Env) (stations : List StationRecord) (fs : List Feature),
        getDashboardFeatures env stations false = Except.ok fs →
        ∀ f ∈ fs, f.id ≠ FeatId.station sentinelId) := by
  have key : ∀ stations : List StationRecord,
      stationFeatures (stations.filter (fun r => r.station_id != sentinelId)) =
        stationFeatures stations := by
    intro stations
    unfold stationFeatures
    rw [List.filter_filter]
    simp only [Bool.and_self]
  constructor
  · intro env stations aggregate
    unfold getDashboardFeatures
    rw [key]
  · intro env stations fs hrun f hf
    rw [getDashboardFeatures_false] at hrun
    injection hrun with h2
    subst h2
    rw [mem_stationFeatures] at hf
    obtain ⟨r, hr, hne, rfl⟩ := hf
    intro hcontra
    unfold stationFeature at hcontra
    dsimp only at hcontra
    injection hcontra with h3
    exact hne h3

/-- C7 witness: the sentinel-exclusion conclusion evaluated on a single
non-sentinel station in non-aggregated mode. -/
theorem C7_sentinel_witness :
    (stationFeature exStation).id ≠ FeatId.station sentinelId :=
  C7_sentinel.2 exEnv [exStation] [stationFeature exStation] rfl
    (stationFeature exStation) (List.mem_singleton.mpr rfl)

/-- C6: in non-aggregated mode every emitted feature has
totalPopularity = max(originPopularity, destinationPopularity); in
aggregated mode every cell's totalPopularity is the sum, over the
station features matching its hex, of each station's per-station
maximum. -/
theorem C6_total_popularity (env : Env) (stations : List StationRecord) :
    (∀ fs, getDashboardFeatures env stations false = Except.ok fs →
      ∀ f ∈ fs, f.properties.totalPopularity =
        max f.properties.originPopularity f.properties.destinationPopularity) ∧
    (∀ fa, getDashboardFeatures env stations true = Except.ok fa →
      ∀ f ∈ fa, ∃ hex : Geom, f.geometry = some hex ∧
        f.properties.totalPopularity =
          jsReduceSum
            (((stationFeatures stations).filter (stationMatches env.turf hex)).map
              (fun st => max st.properties.originPopularity
                st.properties.destinationPopularity))) := by
  constructor
  · intro fs hrun f hf
    rw [getDashboardFeatures_false] at hrun
    injection hrun with h2
    subst h2
    rw [mem_stationFeatures] at hf
    obtain ⟨r, hr, -, rfl⟩ := hf
    rfl
  · intro fa hrun f hf
    rw [getDashboardFeatures_true] at hrun
    obtain ⟨p, hp, rfl⟩ := aggregateLoop_mem _ _ _ _ _ hrun f hf
    refine ⟨p.2, rfl, ?_⟩
    unfold hexCellFeature
    dsimp only
    congr 1
    apply List.map_congr_left
    intro st hst
    have hmem := (mem_stationFeatures stations st).mp (List.mem_of_mem_filter hst)
    obtain ⟨r, hr, -, rfl⟩ := hmem
    rfl

/-- C6 witness: both conclusions evaluated on a single station with
popularities 5 and 5, in non-aggregated and aggregated mode. -/
theorem C6_total_popularity_witness :
    (stationFeature exStation).properties.totalPopularity =
      max (stationFeature exStation).properties.originPopularity
        (stationFeature exStation).properties.destinationPopularity ∧
    ∃ hex : Geom, (hexCellFeature 0 0 [stationFeature exStation]).geometry = some hex ∧
      (hexCellFeature 0 0 [stationFeature exStation]).properties.totalPopularity =
        jsReduceSum
          (((stationFeatures [exStation]).filter (stationMatches exEnv.turf hex)).map
            (fun st => max st.properties.originPopularity
              st.properties.destinationPopularity)) :=
  ⟨(C6_total_popularity exEnv [exStation]).1 [stationFeature exStation] rfl
      (stationFeature exStation) (List.mem_singleton.mpr rfl),
    (C6_total_popularity exEnv [exStation]).2 [hexCellFeature 0 0 [stationFeature exStation]]
      rfl (hexCellFeature 0 0 [stationFeature exStation]) (List.mem_singleton.mpr rfl)⟩

/-- Helper for C9: the concrete update cycle run with a pre-existing
origin lower bound of 100 and one freshly fetched station. -/
theorem exC9_run :
    runUpdateCycle exEnv exC9Filters [exStation] false =
      Except.ok ⟨exC9Filters, [], emptyFilters⟩ := by
  have h100 : ¬ ((100 : ℚ) ≤ 5) := by norm_num
  have hpass : featurePasses exC9Filters (stationFeature exStation) = false := by
    simp only [featurePasses, exC9Filters, stationFeature, exStation]
    simp [decide_eq_false h100]
  have hfilter : filteredFeatures exC9Filters [stationFeature exStation] = [] := by
    unfold filteredFeatures
    rw [List.filter_cons, hpass]
    simp
  show Except.ok (CycleResult.mk exC9Filters
      (filteredFeatures exC9Filters [stationFeature exStation]) emptyFilters) =
    Except.ok (CycleResult.mk exC9Filters [] emptyFilters)
  rw [hfilter]

/-- C9 counterexample: an update cycle started with a nonempty
FilterRange renders the freshly fetched features through that stale
FilterRange (here drawing nothing although rendering with a cleared
FilterRange would draw the fetched station), so the filters are not
cleared before the map update. -/
theorem C9_counterexample :
    runUpdateCycle exEnv exC9Filters [exStation] false =
      Except.ok ⟨exC9Filters, [], emptyFilters⟩ ∧
    exC9Filters ≠ emptyFilters ∧
    filteredFeatures emptyFilters (stationFeatures [exStation]) =
      [stationFeature exStation] := by
  refine ⟨exC9_run, ?_, rfl⟩
  intro h
  have := congrArg Filters.originPopularityMin h
  simp [exC9Filters, emptyFilters] at this

/-- C9 (amended): in every successfully completing update cycle the map
is rendered with the FilterRange that was in effect before the cycle
(not a cleared one); the FilterRange is cleared only afterwards, by
updateCharts, so the cycle ends with an empty FilterRange. -/
theorem C9_filters_cleared_late (env : Env) (filters0 : Filters)
    (fetched : List StationRecord) (aggregate : Bool) (r : CycleResult)
    (h : runUpdateCycle env filters0 fetched aggregate = Except.ok r) :
    r.renderedFilters = filters0 ∧ r.finalFilters = emptyFilters ∧
    ∃ features, getDashboardFeatures env fetched aggregate = Except.ok features ∧
      r.renderedFeatures = filteredFeatures filters0 features := by
  unfold runUpdateCycle at h
  cases hg : getDashboardFeatures env fetched aggregate with
  | error e =>
    rw [hg] at h
    cases h
  | ok features =>
    rw [hg] at h
    injection h with h2
    subst h2
    exact ⟨rfl, rfl, features, rfl, rfl⟩

/-- C9 witness: the amended theorem evaluated on the concrete cycle
with a pre-existing origin bound. -/
theorem C9_filters_cleared_late_witness :
    (⟨exC9Filters, [], emptyFilters⟩ : CycleResult).renderedFilters = exC9Filters ∧
    (⟨exC9Filters, [], emptyFilters⟩ : CycleResult).finalFilters = emptyFilters ∧
    ∃ features, getDashboardFeatures exEnv [exStation] false = Except.ok features ∧
      (⟨exC9Filters, [], emptyFilters⟩ : CycleResult).renderedFeatures =
        filteredFeatures exC9Filters features :=
  C9_filters_cleared_late exEnv exC9Filters [exStation] false
    ⟨exC9Filters, [], emptyFilters⟩ exC9_run

/-- Helper: the tick factor is positive. -/
theorem tickFactor_pos (e : ℚ) : 0 < tickFactor e := by
  unfold tickFactor
  split
  · norm_num
  · split
    · norm_num
    · split <;> norm_num

/-- Helper: JavaScript rounding followed by the downward adjustment d3
performs yields the floor. -/
theorem jsRound_adjust (x : ℚ) (r : ℤ) (hr : r = jsRound x) :
    (if x < (r : ℚ) then r - 1 else r) = ⌊x⌋ := by
  subst hr
  unfold jsRound
  have h2 : ⌊x + 1/2⌋ ≤ ⌊x⌋ + 1 := by
    have hx1 : ⌊x + 1⌋ = ⌊x⌋ + 1 := by exact_mod_cast Int.floor_add_int x 1
    calc ⌊x + 1/2⌋ ≤ ⌊x + 1⌋ := Int.floor_le_floor (by linarith)
      _ = ⌊x⌋ + 1 := hx1
  split
  case isTrue h =>
    have h3 : ⌊x⌋ < ⌊x + 1/2⌋ := Int.floor_lt.mpr (by exact_mod_cast h)
    omega
  case isFalse h =>
    push_neg at h
    have h4 : ⌊x + 1/2⌋ ≤ ⌊x⌋ := Int.le_floor.mpr (by exact_mod_cast h)
    have h1 : ⌊x⌋ ≤ ⌊x + 1/2⌋ := Int.floor_le_floor (by linarith)
    omega

/-- Helper: at the domains [0, M] used by renderChart, tickSpec starts
its tick indices at 0, its decoded step is positive, and the last tick
index is the floor of M over the step. -/
theorem tickSpec_zero (M : ℚ) :
    (tickSpec 0 M 20).i1 = 0 ∧ 0 < (tickSpec 0 M 20).step ∧
    (tickSpec 0 M 20).i2 = ⌊M / (tickSpec 0 M 20).step⌋ := by
  unfold tickSpec TickSpecOut.step
  dsimp only
  have hr0 : jsRound 0 = 0 := by
    unfold jsRound
    norm_num [Int.floor_eq_iff]
  split
  case isTrue hpow =>
    set F := tickFactor ((M - 0) / (20 : ℕ) / (10 : ℚ) ^ floorLog10 ((M - 0) / (20 : ℕ)))
      with hF
    set I := (10 : ℚ) ^ (-floorLog10 ((M - 0) / (20 : ℕ))) / F with hI
    have hIpos : 0 < I := by
      rw [hI]
      have := tickFactor_pos ((M - 0) / (20 : ℕ) / (10 : ℚ) ^ floorLog10 ((M - 0) / (20 : ℕ)))
      positivity
    have hz : (0 : ℚ) * I = 0 := by ring
    have hnc : ¬ (((jsRound (0 * I) : ℤ) : ℚ) / I < 0) := by
      rw [hz, hr0]
      push_neg
      positivity
    rw [if_neg hnc]
    have hneg : -I < 0 := neg_neg_of_pos hIpos
    refine ⟨by rw [hz, hr0], ?_, ?_⟩
    · rw [if_pos hneg, neg_neg]
      positivity
    · rw [if_pos hneg]
      have hcond : (M < ((jsRound (M * I) : ℤ) : ℚ) / I) ↔ (M * I < ((jsRound (M * I) : ℤ) : ℚ)) := by
        rw [lt_div_iff₀ hIpos]
      rw [if_congr hcond rfl rfl, jsRound_adjust (M * I) _ rfl]
      dsimp only
      congr 1
      rw [neg_neg, div_eq_mul_inv, one_div, inv_inv]
  case isFalse hpow =>
    set F := tickFactor ((M - 0) / (20 : ℕ) / (10 : ℚ) ^ floorLog10 ((M - 0) / (20 : ℕ)))
      with hF
    set I := (10 : ℚ) ^ (floorLog10 ((M - 0) / (20 : ℕ))) * F with hI
    have hIpos : 0 < I := by
      rw [hI]
      have := tickFactor_pos ((M - 0) / (20 : ℕ) / (10 : ℚ) ^ floorLog10 ((M - 0) / (20 : ℕ)))
      positivity
    have hz : (0 : ℚ) / I = 0 := by simp
    have hnc : ¬ (((jsRound (0 / I) : ℤ) : ℚ) * I < 0) := by
      rw [hz, hr0]
      push_neg
      simp
    rw [if_neg hnc]
    have hnneg : ¬ (I < 0) := not_lt.mpr (le_of_lt hIpos)
    refine ⟨by rw [hz, hr0], ?_, ?_⟩
    · rw [if_neg hnneg]
      exact hIpos
    · rw [if_neg hnneg]
      have hcond : (M < ((jsRound (M / I) : ℤ) : ℚ) * I) ↔ (M / I < ((jsRound (M / I) : ℤ) : ℚ)) := by
        rw [div_lt_iff₀ hIpos]
      rw [if_congr hcond rfl rfl, jsRound_adjust (M / I) _ rfl]

/-- Helper: at the domains [0, M] with 0 < M, the d3 tick list is the
arithmetic progression of multiples of the decoded step from 0 up to
the floor of M over the step. -/
theorem ticksList_zero (M : ℚ) (hM : 0 < M) :
    ticksList 0 M 20 =
      (List.range ((⌊M / (tickSpec 0 M 20).step⌋).toNat + 1)).map
        (fun (i : ℕ) => (i : ℚ) * (tickSpec 0 M 20).step) := by
  obtain ⟨hi1, hw, hi2⟩ := tickSpec_zero M
  set s := tickSpec 0 M 20 with hs
  set w := s.step with hwdef
  have hfl : (0 : ℤ) ≤ ⌊M / w⌋ := Int.floor_nonneg.mpr (by positivity)
  unfold ticksList
  rw [if_neg (by norm_num), if_neg (by exact fun h => absurd h.symm (ne_of_gt hM)),
    if_neg (not_lt.mpr (le_of_lt hM)), ← hs, if_neg (by omega)]
  unfold tickRange
  rw [hi1, hi2]
  have hn : (⌊M / w⌋ - 0 + 1).toNat = ⌊M / w⌋.toNat + 1 := by omega
  rw [hn]
  unfold TickSpecOut.step at hwdef
  by_cases hneg : s.inc < 0
  · rw [if_pos hneg]
    apply List.map_congr_left
    intro i hi
    have hinc : -s.inc = 1 / w := by
      rw [hwdef, if_pos hneg, one_div, one_div, inv_inv]
    rw [hinc]
    push_cast
    rw [zero_add, div_eq_mul_inv, one_div, inv_inv]
  · rw [if_neg hneg]
    apply List.map_congr_left
    intro i hi
    have hinc : s.inc = w := by rw [hwdef, if_neg hneg]
    rw [hinc]
    push_cast
    rw [zero_add]

/-- Helper: dropWhile removes nothing when the predicate is false on
every element. -/
theorem dropWhile_false_of (p : ℚ → Bool) (l : List ℚ) (h : ∀ x ∈ l, p x = false) :
    l.dropWhile p = l := by
  cases l with
  | nil => rfl
  | cons a l2 =>
    rw [List.dropWhile_cons, h a (List.mem_cons_self a l2)]
    simp

/-- Helper: the trailing trim of d3.bin is the identity when every
threshold is at most the upper bound. -/
theorem trimHigh_id (x1 : ℚ) (l : List ℚ) (h : ∀ x ∈ l, x ≤ x1) :
    trimHigh x1 l = l := by
  unfold trimHigh
  rw [dropWhile_false_of]
  · exact List.reverse_reverse l
  · intro x hx
    rw [List.mem_reverse] at hx
    exact decide_eq_false (not_lt.mpr (h x hx))

/-- Helper: trimming a progression 0, w, ..., K w at lower bound 0 and
an upper bound dominating K w drops exactly the leading 0. -/
theorem trim_progression (w M : ℚ) (hw : 0 < w) (K : ℕ) (hKM : (K : ℚ) * w ≤ M) :
    trimHigh M (trimLow 0 ((List.range (K + 1)).map (fun (i : ℕ) => (i : ℚ) * w))) =
      (List.range K).map (fun (i : ℕ) => ((i : ℚ) + 1) * w) := by
  have hmem : ∀ x ∈ (List.range K).map (fun (i : ℕ) => ((i : ℚ) + 1) * w),
      0 < x ∧ x ≤ M := by
    intro x hx
    obtain ⟨i, hi, rfl⟩ := List.mem_map.mp hx
    rw [List.mem_range] at hi
    constructor
    · positivity
    · have h1 : (i : ℚ) + 1 ≤ (K : ℚ) := by exact_mod_cast Nat.succ_le_of_lt hi
      calc ((i : ℚ) + 1) * w ≤ (K : ℚ) * w := mul_le_mul_of_nonneg_right h1 (le_of_lt hw)
        _ ≤ M := hKM
  have hshape : (List.range (K + 1)).map (fun (i : ℕ) => (i : ℚ) * w) =
      ((0 : ℚ) * w) :: (List.range K).map (fun (i : ℕ) => ((i : ℚ) + 1) * w) := by
    rw [List.range_succ_eq_map, List.map_cons, List.map_map]
    have htail : List.map ((fun (i : ℕ) => (i : ℚ) * w) ∘ Nat.succ) (List.range K) =
        List.map (fun (i : ℕ) => ((i : ℚ) + 1) * w) (List.range K) := by
      apply List.map_congr_left
      intro i hi
      simp only [Function.comp_apply]
      push_cast
      ring
    rw [htail]
    norm_num
  rw [hshape]
  unfold trimLow
  rw [List.dropWhile_cons]
  have hp0 : decide ((0 : ℚ) * w ≤ 0) = true := by
    rw [decide_eq_true_eq]
    norm_num
  rw [hp0]
  simp only [if_true]
  rw [dropWhile_false_of]
  · exact trimHigh_id M _ (fun x hx => (hmem x hx).2)
  · intro x hx
    exact decide_eq_false (not_le.mpr (hmem x hx).1)

/-- Helper: at the domains [0, M] with 0 < M, the trimmed threshold
list of d3.bin is a progression of positive step multiples whose length
m keeps M strictly above m steps and at most m + 1 steps. -/
theorem binThresholds_zero (M : ℚ) (hM : 0 < M) :
    ∃ m : ℕ, binThresholds 0 M 20 =
        (List.range m).map (fun (i : ℕ) => ((i : ℚ) + 1) * (tickSpec 0 M 20).step) ∧
      (m : ℚ) * (tickSpec 0 M 20).step < M ∧
      M ≤ ((m : ℚ) + 1) * (tickSpec 0 M 20).step := by
  obtain ⟨hi1, hw, hi2⟩ := tickSpec_zero M
  set s := tickSpec 0 M 20 with hs
  set w := s.step with hwdef
  have hfl0 : (0 : ℤ) ≤ ⌊M / w⌋ := Int.floor_nonneg.mpr (by positivity)
  set F : ℕ := ⌊M / w⌋.toNat with hF
  have hFQ : (F : ℚ) = ((⌊M / w⌋ : ℤ) : ℚ) := by
    rw [hF]
    exact_mod_cast Int.toNat_of_nonneg hfl0
  have hFle : (F : ℚ) * w ≤ M := by
    have h1 : ((⌊M / w⌋ : ℤ) : ℚ) ≤ M / w := Int.floor_le _
    rw [hFQ]
    calc ((⌊M / w⌋ : ℤ) : ℚ) * w ≤ (M / w) * w :=
        mul_le_mul_of_nonneg_right h1 (le_of_lt hw)
      _ = M := div_mul_cancel₀ M (ne_of_gt hw)
  have hFlt : M < ((F : ℚ) + 1) * w := by
    have h1 : M / w < ((⌊M / w⌋ : ℤ) : ℚ) + 1 := Int.lt_floor_add_one _
    rw [hFQ]
    calc M = (M / w) * w := (div_mul_cancel₀ M (ne_of_gt hw)).symm
      _ < (((⌊M / w⌋ : ℤ) : ℚ) + 1) * w := mul_lt_mul_of_pos_right h1 hw
  have htz0 : ticksList 0 M 20 = (List.range (F + 1)).map (fun (i : ℕ) => (i : ℚ) * w) :=
    ticksList_zero M hM
  have hsplit : (List.range (F + 1)).map (fun (i : ℕ) => (i : ℚ) * w) =
      ((List.range F).map (fun (i : ℕ) => (i : ℚ) * w)) ++ [(F : ℚ) * w] := by
    rw [List.range_succ, List.map_append]
    rfl
  unfold binThresholds
  rw [htz0]
  dsimp only
  rw [hsplit, List.getLast?_concat]
  dsimp only
  by_cases hpop : M ≤ (F : ℚ) * w
  · have heq : (F : ℚ) * w = M := le_antisymm hFle hpop
    rw [if_pos hpop, List.dropLast_concat]
    have hFpos : F ≠ 0 := by
      intro h0
      rw [h0] at heq
      norm_num at heq
      exact absurd heq.symm (ne_of_gt hM)
    obtain ⟨K, hK⟩ := Nat.exists_eq_succ_of_ne_zero hFpos
    have hKv : ((K : ℚ) + 1) * w = M := by
      rw [← heq, hK]
      push_cast
      ring
    refine ⟨K, ?_, by nlinarith [hw], le_of_eq hKv.symm⟩
    rw [hK]
    exact trim_progression w M hw K (by nlinarith [hw])
  · rw [if_neg hpop, ← hsplit]
    refine ⟨F, trim_progression w M hw F hFle, not_le.mp hpop, le_of_lt hFlt⟩

/-- Helper: at the domains [0, M] with 0 < M, d3.bin stores the signed
tick increment as its quantization step. -/
theorem binStep_zero (M : ℚ) (hM : 0 < M) :
    binStep 0 M 20 = some (tickSpec 0 M 20).inc := by
  unfold binStep
  rw [ticksList_zero M hM, List.range_succ_eq_map, List.map_cons, List.head?_cons]
  dsimp only
  rw [if_pos (show ((0 : ℕ) : ℚ) * (tickSpec 0 M 20).step ≤ 0 by simp)]
  unfold tickIncrementOpt
  rw [if_pos ⟨hM, by norm_num⟩]

/-- Helper: everything in a list is at most a Math.max spread result. -/
theorem jsMax_ge (l : List ℚ) (m : ℚ) (h : jsMax l = JsNum.num m) : ∀ x ∈ l, x ≤ m := by
  cases l with
  | nil => cases h
  | cons a l2 =>
    injection h with h2
    subst h2
    have key : ∀ (t : List ℚ) (a0 : ℚ),
        a0 ≤ t.foldl max a0 ∧ ∀ x ∈ t, x ≤ t.foldl max a0 := by
      intro t
      induction t with
      | nil =>
        intro a0
        exact ⟨le_refl a0, by intro x hx; cases hx⟩
      | cons b t2 ih =>
        intro a0
        rw [List.foldl_cons]
        refine ⟨le_trans (le_max_left a0 b) (ih (max a0 b)).1, ?_⟩
        intro x hx
        rcases List.mem_cons.mp hx with rfl | hx2
        · exact le_trans (le_max_right a0 x) (ih (max a0 x)).1
        · exact (ih (max a0 b)).2 x hx2
    intro x hx
    rcases List.mem_cons.mp hx with rfl | hx2
    · exact (key l2 x).1
    · exact (key l2 a).2 x hx2

/-- Helper: a range list counts exactly one index equal to a fixed
index below its length. -/
theorem countP_range_one (n c : ℕ) (hc : c < n) :
    (List.range n).countP (fun i => c == i) = 1 := by
  induction n with
  | zero => cases hc
  | succ n ih =>
    rw [List.range_succ, List.countP_append]
    by_cases hcn : c < n
    · rw [ih hcn]
      have : (List.countP (fun i => c == i) [n]) = 0 := by
        rw [List.countP_eq_zero]
        intro a ha
        rw [List.mem_singleton] at ha
        subst ha
        simp
        omega
      rw [this]
    · have hceq : c = n := by omega
      subst hceq
      have h0 : (List.range c).countP (fun i => c == i) = 0 := by
        rw [List.countP_eq_zero]
        intro a ha
        rw [List.mem_range] at ha
        simp
        omega
      rw [h0]
      simp

/-- Helper: countP is invariant under pointwise equal predicates. -/
theorem countP_congr_eq (p q : ℕ → Bool) (l : List ℕ) (h : ∀ a ∈ l, p a = q a) :
    l.countP p = l.countP q := by
  induction l with
  | nil => rfl
  | cons a t ih =>
    rw [List.countP_cons, List.countP_cons, h a (List.mem_cons_self a t),
      ih (fun b hb => h b (List.mem_cons_of_mem a hb))]

/-- Helper: for the progression thresholds and a stored tick increment
whose decoded step is w, the d3.bin index assignment (in both its
quantization branches) is the quantization of x by w capped at the last
bin. -/
theorem binIndex_formula (w : ℚ) (hw : 0 < w) (m : ℕ) (inc : ℚ)
    (hdec : (if inc < 0 then 1 / -inc else inc) = w) (x : ℚ) (hx : 0 ≤ x) :
    binIndex ((List.range m).map (fun (i : ℕ) => ((i : ℚ) + 1) * w)) m (some inc) 0 x =
      min m (Int.toNat ⌊x / w⌋) := by
  simp only [binIndex]
  by_cases hneg : inc < 0
  · rw [if_pos hneg] at hdec
    rw [if_neg (not_lt.mpr (le_of_lt hneg))]
    have hsval : -inc = 1 / w := by
      rw [← hdec, one_div, one_div, inv_inv]
    rw [hsval, sub_zero, mul_one_div]
    have hdiv0 : (0 : ℚ) ≤ x / w := by positivity
    have hfl0 : (0 : ℤ) ≤ ⌊x / w⌋ := Int.floor_nonneg.mpr hdiv0
    set j := Int.toNat ⌊x / w⌋ with hj
    have hjZ : (j : ℤ) = ⌊x / w⌋ := Int.toNat_of_nonneg hfl0
    rw [List.get?_map]
    by_cases hjm : j < m
    · rw [List.get?_range hjm, Option.map_some']
      dsimp only
      rw [if_neg ?hcond]
      · rw [add_zero]
      case hcond =>
        intro hle
        have h1 : ((j : ℚ) + 1) ≤ x / w := by
          rw [le_div_iff₀ hw]
          exact hle
        have h2 : ((j : ℤ) + 1 : ℤ) ≤ ⌊x / w⌋ := by
          apply Int.le_floor.mpr
          exact_mod_cast h1
        omega
    · rw [List.get?_len_le (by simpa using not_lt.mp hjm), Option.map_none']
      dsimp only
      rw [add_zero]
  · rw [if_neg hneg] at hdec
    subst hdec
    rw [if_pos hw]
    rw [sub_zero]

/-- Helper: the quantization index keeps a value of [0, M] inside its
bin span and sends the boundary value M to the last bin. -/
theorem binIndex_containment (w M : ℚ) (hw : 0 < w) (m : ℕ)
    (hlow : (m : ℚ) * w < M) (hhigh : M ≤ ((m : ℚ) + 1) * w)
    (x : ℚ) (hx0 : 0 ≤ x) (hxM : x ≤ M) :
    min m (Int.toNat ⌊x / w⌋) ≤ m ∧
    ((min m (Int.toNat ⌊x / w⌋) : ℕ) : ℚ) * w ≤ x ∧
    (min m (Int.toNat ⌊x / w⌋) < m →
      x < (((min m (Int.toNat ⌊x / w⌋) : ℕ) : ℚ) + 1) * w) ∧
    (x = M → min m (Int.toNat ⌊x / w⌋) = m) := by
  have hdiv0 : (0 : ℚ) ≤ x / w := by positivity
  have hfl0 : (0 : ℤ) ≤ ⌊x / w⌋ := Int.floor_nonneg.mpr hdiv0
  set jn := Int.toNat ⌊x / w⌋ with hjn
  have hjZ : (jn : ℤ) = ⌊x / w⌋ := Int.toNat_of_nonneg hfl0
  have hjle : ((jn : ℕ) : ℚ) ≤ x / w := by
    have h1 : ((⌊x / w⌋ : ℤ) : ℚ) ≤ x / w := Int.floor_le _
    rw [show ((jn : ℕ) : ℚ) = ((⌊x / w⌋ : ℤ) : ℚ) by exact_mod_cast hjZ]
    exact h1
  have hjlt : x / w < ((jn : ℕ) : ℚ) + 1 := by
    have h1 : x / w < ((⌊x / w⌋ : ℤ) : ℚ) + 1 := Int.lt_floor_add_one _
    rw [show ((jn : ℕ) : ℚ) = ((⌊x / w⌋ : ℤ) : ℚ) by exact_mod_cast hjZ]
    exact h1
  refine ⟨min_le_left _ _, ?_, ?_, ?_⟩
  · have h1 : ((min m jn : ℕ) : ℚ) ≤ ((jn : ℕ) : ℚ) := by
      exact_mod_cast min_le_right m jn
    calc ((min m jn : ℕ) : ℚ) * w ≤ ((jn : ℕ) : ℚ) * w :=
        mul_le_mul_of_nonneg_right h1 (le_of_lt hw)
      _ ≤ (x / w) * w := mul_le_mul_of_nonneg_right hjle (le_of_lt hw)
      _ = x := div_mul_cancel₀ x (ne_of_gt hw)
  · intro hlt
    have hmin : min m jn = jn := by omega
    rw [hmin]
    calc x = (x / w) * w := (div_mul_cancel₀ x (ne_of_gt hw)).symm
      _ < (((jn : ℕ) : ℚ) + 1) * w := mul_lt_mul_of_pos_right hjlt hw
  · intro hxeq
    subst hxeq
    have h1 : (m : ℚ) < x / w := by
      rw [lt_div_iff₀ hw]
      exact hlow
    have h2 : (m : ℤ) ≤ ⌊x / w⌋ := Int.le_floor.mpr (by exact_mod_cast le_of_lt h1)
    omega

/-- C4 (amended): the histogram buckets are the d3 nice-tick buckets,
whose count and common width are set by the tick rounding (in general
not 20 buckets and not width M/20): the first bucket starts at 0 and
the last ends at the metric maximum M; every feature value in [0, M] is
assigned to exactly one bucket, whose span contains it, the boundary
value M landing in the last bucket; selecting bucket i sets the
metric's FilterRange pair to that bucket's edges and deselecting clears
the pair. -/
theorem C4_histogram (features : List Feature) (p : Metric) (M : ℚ)
    (bins : List (D3Bin Feature)) (hM : metricMax features p = some M) (hMpos : 0 < M)
    (hbins : renderChartBins features p = some bins) :
    (∃ b, bins.head? = some b ∧ b.x0 = 0) ∧
    (∃ b, bins.getLast? = some b ∧ b.x1 = M) ∧
    (∀ f ∈ features, 0 ≤ p.value f →
      bins.countP (fun b => decide (f ∈ b.items)) = 1 ∧
      (∀ b ∈ bins, f ∈ b.items → b.x0 ≤ p.value f ∧ p.value f ≤ b.x1) ∧
      (p.value f = M → ∃ b, bins.getLast? = some b ∧ f ∈ b.items)) ∧
    (∀ (i : ℕ) (b : D3Bin Feature) (fl : Filters), bins.get? i = some b →
      applyBucketSelection bins p (some i) fl =
        setMetricBounds p (some b.x0) (some b.x1) fl) ∧
    (∀ fl, applyBucketSelection bins p none fl = setMetricBounds p none none fl) := by
  have hvle : ∀ f ∈ features, p.value f ≤ M := by
    intro f hf
    unfold metricMax at hM
    cases hjs : jsMax (features.map p.value) with
    | num m2 =>
      rw [hjs] at hM
      dsimp only at hM
      injection hM with hM2
      subst hM2
      exact jsMax_ge _ _ hjs (p.value f) (List.mem_map_of_mem _ hf)
    | nan => rw [hjs] at hM; cases hM
    | posInf => rw [hjs] at hM; cases hM
    | negInf => rw [hjs] at hM; cases hM
  have hbform : bins = d3bin p.value 0 M 20 features := by
    unfold renderChartBins at hbins
    rw [hM] at hbins
    dsimp only at hbins
    injection hbins with h2
    exact h2.symm
  obtain ⟨hi1, hw, hi2⟩ := tickSpec_zero M
  obtain ⟨m, htz, hlow, hhigh⟩ := binThresholds_zero M hMpos
  have hlen : (binThresholds 0 M 20).length = m := by
    rw [htz, List.length_map, List.length_range]
  have hd3 : bins = (List.range (m + 1)).map
      (d3binAt p.value 0 M (binThresholds 0 M 20) (binStep 0 M 20) m features) := by
    rw [hbform]
    unfold d3bin
    dsimp only
    rw [hlen]
  have hgetD : ∀ i, i < m → (binThresholds 0 M 20).getD i 0 =
      ((i : ℚ) + 1) * (tickSpec 0 M 20).step := by
    intro i hi
    rw [htz, List.getD_eq_get?, List.get?_map, List.get?_range hi, Option.map_some']
    rfl
  have hidx : ∀ x : ℚ, 0 ≤ x →
      binIndex (binThresholds 0 M 20) m (binStep 0 M 20) 0 x =
        min m (Int.toNat ⌊x / (tickSpec 0 M 20).step⌋) := by
    intro x hx
    rw [htz, binStep_zero M hMpos]
    exact binIndex_formula (tickSpec 0 M 20).step hw m _ rfl x hx
  refine ⟨?_, ?_, ?_, ?_, ?_⟩
  · rw [hd3, List.range_succ_eq_map, List.map_cons, List.head?_cons]
    exact ⟨_, rfl, rfl⟩
  · rw [hd3, List.range_succ, List.map_append, List.map_singleton, List.getLast?_concat]
    refine ⟨_, rfl, ?_⟩
    show (if m < m then (binThresholds 0 M 20).getD m 0 else M) = M
    rw [if_neg (lt_irrefl m)]
  · intro f hf hx0
    have hxM : p.value f ≤ M := hvle f hf
    have hidxf := hidx (p.value f) hx0
    obtain ⟨hle_m, hlo2, hhi2, hlast2⟩ :=
      binIndex_containment (tickSpec 0 M 20).step M hw m hlow hhigh (p.value f) hx0 hxM
    have hmemitems : ∀ i : ℕ,
        (f ∈ (d3binAt p.value 0 M (binThresholds 0 M 20) (binStep 0 M 20) m features i).items
          ↔ (binIndex (binThresholds 0 M 20) m (binStep 0 M 20) 0 (p.value f) == i) = true) := by
      intro i
      unfold d3binAt
      dsimp only
      rw [List.mem_filter]
      simp only [Bool.and_eq_true, decide_eq_true_eq]
      constructor
      · rintro ⟨-, -, hbq⟩
        exact hbq
      · intro hbq
        exact ⟨hf, ⟨hx0, hxM⟩, hbq⟩
    refine ⟨?_, ?_, ?_⟩
    · rw [hd3, List.countP_map]
      rw [countP_congr_eq _
        (fun i => (min m (Int.toNat ⌊p.value f / (tickSpec 0 M 20).step⌋)) == i) _ ?hpt]
      · exact countP_range_one (m + 1)
          (min m (Int.toNat ⌊p.value f / (tickSpec 0 M 20).step⌋)) (by omega)
      case hpt =>
        intro i hi
        simp only [Function.comp_apply]
        cases hbq : (binIndex (binThresholds 0 M 20) m (binStep 0 M 20) 0 (p.value f) == i) with
        | true =>
          rw [decide_eq_true ((hmemitems i).mpr hbq)]
          rw [← hidxf]
          exact hbq.symm
        | false =>
          rw [decide_eq_false (fun hmem => by rw [(hmemitems i).mp hmem] at hbq; cases hbq)]
          rw [← hidxf]
          exact hbq.symm
    · intro b hb hfb
      rw [hd3] at hb
      obtain ⟨i, hi, rfl⟩ := List.mem_map.mp hb
      rw [List.mem_range] at hi
      have hieq : i = min m (Int.toNat ⌊p.value f / (tickSpec 0 M 20).step⌋) := by
        have := (hmemitems i).mp hfb
        rw [beq_iff_eq] at this
        rw [← this, hidxf]
      constructor
      · show (if i = 0 then (0 : ℚ) else (binThresholds 0 M 20).getD (i - 1) 0) ≤ p.value f
        by_cases hi0 : i = 0
        · rw [if_pos hi0]
          exact hx0
        · rw [if_neg hi0]
          have h1le : 1 ≤ i := Nat.one_le_iff_ne_zero.mpr hi0
          have him : i - 1 < m := by omega
          rw [hgetD (i - 1) him]
          have hcast : ((i - 1 : ℕ) : ℚ) + 1 = (i : ℚ) := by
            have : ((i - 1 : ℕ) : ℚ) = (i : ℚ) - 1 := by
              push_cast [Nat.cast_sub h1le]
              ring
            rw [this]
            ring
          rw [hcast, hieq]
          exact hlo2
      · show p.value f ≤ (if i < m then (binThresholds 0 M 20).getD i 0 else M)
        by_cases him : i < m
        · rw [if_pos him, hgetD i him]
          rw [hieq] at him ⊢
          exact le_of_lt (hhi2 him)
        · rw [if_neg him]
          exact hxM
    · intro hveq
      rw [hd3, List.range_succ, List.map_append, List.map_singleton, List.getLast?_concat]
      refine ⟨_, rfl, ?_⟩
      rw [hmemitems m]
      rw [beq_iff_eq, hidxf]
      exact hlast2 hveq
  · intro i b fl hget
    simp only [applyBucketSelection]
    rw [hget]
  · intro fl
    rfl

/-- Helper for C4: the tick specification at the domain [0, 70] with
threshold count 20 picks the nice step 5 (not 70/20 = 3.5). -/
theorem exC4_tickSpec : tickSpec 0 70 20 = ⟨0, 14, 5⟩ := by
  have hstep : ((70 : ℚ) - 0) / ((20 : ℕ) : ℚ) = 7 / 2 := by norm_num
  have hlog : floorLog10 (7 / 2) = 0 := by
    unfold floorLog10
    rw [if_pos (by norm_num : (1 : ℚ) ≤ 7 / 2)]
    have h3 : ⌊(7 : ℚ) / 2⌋ = 3 := by norm_num
    rw [h3]
    rfl
  have hfac : tickFactor (7 / 2) = 5 := by
    unfold tickFactor
    rw [if_neg (by norm_num), if_pos (by norm_num)]
  unfold tickSpec
  rw [hstep]
  dsimp only
  rw [hlog]
  rw [if_neg (by norm_num : ¬ ((0 : ℤ) < 0))]
  have herr : (7 : ℚ) / 2 / (10 : ℚ) ^ (0 : ℤ) = 7 / 2 := by norm_num
  rw [herr, hfac]
  have hinc : (10 : ℚ) ^ (0 : ℤ) * 5 = 5 := by norm_num
  rw [hinc]
  have hr1 : jsRound ((0 : ℚ) / 5) = 0 := by
    unfold jsRound
    norm_num
  have hr2 : jsRound ((70 : ℚ) / 5) = 14 := by
    unfold jsRound
    norm_num
  rw [hr1, hr2]
  rw [if_neg (by norm_num : ¬ ((((0 : ℤ) : ℚ)) * 5 < 0)),
    if_neg (by norm_num : ¬ ((70 : ℚ) < ((14 : ℤ) : ℚ) * 5))]

/-- Helper for C4: the tick list at domain [0, 70]: fifteen ticks of
width 5. -/
theorem exC4_ticks : ticksList 0 70 20 =
    [0, 5, 10, 15, 20, 25, 30, 35, 40, 45, 50, 55, 60, 65, 70] := by
  unfold ticksList
  rw [if_neg (by norm_num : ¬ (20 = 0)), if_neg (by norm_num : ¬ ((0 : ℚ) = 70)),
    if_neg (by norm_num : ¬ ((70 : ℚ) < 0)), exC4_tickSpec]
  rw [if_neg (by norm_num : ¬ ((14 : ℤ) < (0 : ℤ)))]
  unfold tickRange
  dsimp only
  rw [if_neg (by norm_num : ¬ ((5 : ℚ) < 0))]
  have hr : List.range (((14 : ℤ) - 0 + 1).toNat) =
      [0, 1, 2, 3, 4, 5, 6, 7, 8, 9, 10, 11, 12, 13, 14] := rfl
  rw [hr]
  norm_num

/-- Helper for C4: the trimmed threshold list at domain [0, 70]. -/
theorem exC4_thresholds : binThresholds 0 70 20 =
    [5, 10, 15, 20, 25, 30, 35, 40, 45, 50, 55, 60, 65] := by
  unfold binThresholds
  rw [exC4_ticks]
  dsimp only
  have hlast : ([0, 5, 10, 15, 20, 25, 30, 35, 40, 45, 50, 55, 60, 65, 70] :
      List ℚ).getLast? = some 70 := rfl
  rw [hlast]
  dsimp only
  rw [if_pos (by norm_num : (70 : ℚ) ≤ 70)]
  have hdrop : ([0, 5, 10, 15, 20, 25, 30, 35, 40, 45, 50, 55, 60, 65, 70] :
      List ℚ).dropLast = [0, 5, 10, 15, 20, 25, 30, 35, 40, 45, 50, 55, 60, 65] := rfl
  rw [hdrop]
  unfold trimLow trimHigh
  norm_num [List.dropWhile]

/-- Helper for C4: the stored quantization step at domain [0, 70]. -/
theorem exC4_binStep : binStep 0 70 20 = some 5 := by
  unfold binStep
  rw [exC4_ticks]
  have hhead : ([0, 5, 10, 15, 20, 25, 30, 35, 40, 45, 50, 55, 60, 65, 70] :
      List ℚ).head? = some 0 := rfl
  rw [hhead]
  dsimp only
  rw [if_pos (by norm_num : (0 : ℚ) ≤ 0)]
  unfold tickIncrementOpt
  rw [if_pos ⟨by norm_num, by norm_num⟩, exC4_tickSpec]

/-- Helper for C4: the full histogram of the single value 70 on domain
[0, 70]: fourteen buckets of width 5, the value in the last. -/
theorem exC4_eval : renderChartBins [f70] Metric.origin = some exC4bins := by
  have hmm : metricMax [f70] Metric.origin = some 70 := rfl
  unfold renderChartBins
  rw [hmm]
  dsimp only
  congr 1
  unfold d3bin
  dsimp only
  rw [exC4_thresholds, exC4_binStep]
  rw [show ([(5 : ℚ), 10, 15, 20, 25, 30, 35, 40, 45, 50, 55, 60, 65].length) = 13 from rfl]
  have hbi : binIndex [5, 10, 15, 20, 25, 30, 35, 40, 45, 50, 55, 60, 65]
      13 (some 5) 0 (70 : ℚ) = 13 := by
    simp only [binIndex]
    rw [if_pos (by norm_num : (0 : ℚ) < 5)]
    norm_num
  have hrange : List.range (13 + 1) = [0, 1, 2, 3, 4, 5, 6, 7, 8, 9, 10, 11, 12, 13] := rfl
  rw [hrange]
  unfold exC4bins
  norm_num [d3binAt, List.getD, f70, Metric.value, List.filter_cons, List.filter_nil, hbi]

/-- C4 counterexample: with a single feature of originPopularity 70 the
histogram has 14 buckets, not the claimed 20, and the first bucket ends
at the nice tick 5, not at 70/20. -/
theorem C4_counterexample :
    renderChartBins [f70] Metric.origin = some exC4bins ∧
    exC4bins.length = 14 ∧ (14 : ℕ) ≠ 20 ∧
    (exC4bins.getD 0 ⟨0, 0, []⟩).x1 = 5 ∧ (5 : ℚ) ≠ 70 / 20 := by
  refine ⟨exC4_eval, rfl, by norm_num, rfl, by norm_num⟩

/-- C4 witness: the amended theorem evaluated on the single feature
with originPopularity 70 and its fourteen concrete buckets. -/
theorem C4_histogram_witness :
    (∃ b, exC4bins.head? = some b ∧ b.x0 = 0) ∧
    (∃ b, exC4bins.getLast? = some b ∧ b.x1 = 70) ∧
    (∀ f ∈ [f70], 0 ≤ Metric.origin.value f →
      exC4bins.countP (fun b => decide (f ∈ b.items)) = 1 ∧
      (∀ b ∈ exC4bins, f ∈ b.items →
        b.x0 ≤ Metric.origin.value f ∧ Metric.origin.value f ≤ b.x1) ∧
      (Metric.origin.value f = 70 → ∃ b, exC4bins.getLast? = some b ∧ f ∈ b.items)) ∧
    (∀ (i : ℕ) (b : D3Bin Feature) (fl : Filters), exC4bins.get? i = some b →
      applyBucketSelection exC4bins Metric.origin (some i) fl =
        setMetricBounds Metric.origin (some b.x0) (some b.x1) fl) ∧
    (∀ fl, applyBucketSelection exC4bins Metric.origin none fl =
      setMetricBounds Metric.origin none none fl) :=
  C4_histogram [f70] Metric.origin 70 exC4bins rfl (by norm_num) exC4_eval

end Indego
